import Mathlib

/-!
Verification of the conflict analysis & ranking engine of the
`langgraph-resource-manager` repository.

The Python sources are shallowly embedded here:
* floats are modelled as exact rationals (`ℚ`);
* calendar dates are modelled as day indices (`ℕ`) with day `0` a Monday,
  so Python's `date.weekday() < 5` becomes `d % 7 < 5`;
* Python's insertion-ordered `dict` is modelled as an association list;
* Python's stable `list.sort(key=...)` is modelled as a sort on
  `(key, original index)` pairs under a strict total order, which is
  extensionally the unique stable sort;
* the `logger.warning` side channel is modelled by separate functions that
  collect the warning strings an agent would log;
* the external Anthropic call in `generator_agent` is modelled by an
  `Except String (List Solution)` parameter holding the outcome of the
  call/parse/validate block.
-/

attribute [local semireducible] Rat.add Rat.mul Rat.sub Rat.inv

namespace ResourceManager

/-! ## Small utilities: string normalization, rounding, business days -/

/-- ASCII lower-casing of one character (model of Python `str.lower` on the
email strings handled by the system). -/
def lowerChar (c : Char) : Char :=
  if 'A' ≤ c ∧ c ≤ 'Z' then Char.ofNat (c.toNat + 32) else c

/-- Whitespace test used by the model of Python `str.strip`. -/
def isSpaceChar (c : Char) : Bool :=
  c == ' ' || c == '\t' || c == '\n' || c == '\r'

/-- Strip leading and trailing whitespace from a character list. -/
def trimChars (l : List Char) : List Char :=
  ((l.dropWhile isSpaceChar).reverse.dropWhile isSpaceChar).reverse

/-- `resource.email.lower().strip()` — the consolidation identity key. -/
def normEmail (s : String) : String :=
  String.mk (trimChars (s.data.map lowerChar))

/-- Round a rational to the nearest integer, halves to even (Python `round`). -/
def roundHalfEven (x : ℚ) : ℤ :=
  let f : ℤ := ⌊x⌋
  let frac : ℚ := x - (f : ℚ)
  if frac < 1/2 then f
  else if 1/2 < frac then f + 1
  else if f % 2 = 0 then f else f + 1

/-- Python `round(x, d)`. -/
def pyRound (d : ℕ) (x : ℚ) : ℚ :=
  (roundHalfEven (x * (10 : ℚ) ^ d) : ℚ) / (10 : ℚ) ^ d

/-- Day `d` is a weekday (Monday–Friday); day `0` is a Monday. -/
def isWeekday (d : ℕ) : Bool := d % 7 < 5

/-- All days from `s` to `e` inclusive (empty when `e < s`). -/
def dateRange (s e : ℕ) : List ℕ :=
  (List.range (e + 1 - s)).map (s + ·)

/-- `get_business_days` from `agents/detector.py`: the number of weekdays in
`[s, e]`, and `0` when `s > e`. -/
def get_business_days (s e : ℕ) : ℕ :=
  if e < s then 0 else (dateRange s e).countP (fun d => isWeekday d)

/-! ## Data model (`models/state.py`) -/

/-- `Resource` — a raw per-project resource record. -/
structure Resource where
  id : String
  name : String
  email : String
  role : String
  max_capacity_hours_per_day : ℚ
  department : Option String
  skill_tags : List String
  deriving DecidableEq, Repr

/-- `Assignment` — a task assignment of a resource over a date range. -/
structure Assignment where
  id : String
  project_id : String
  resource_id : String
  task_id : String
  task_name : String
  start_date : ℕ
  end_date : ℕ
  allocated_units : ℚ
  total_work_hours : ℚ
  is_on_critical_path : Bool
  slack_days : ℕ
  deriving DecidableEq, Repr

/-- `ConsolidatedResource` — one record per distinct normalized email. -/
structure ConsolidatedResource where
  id : String
  name : String
  email : String
  role : String
  capacity : ℚ
  department : Option String
  skills : List String
  assignments : List Assignment
  deriving DecidableEq, Repr

/-- `TaskInvolvement` — one task's share of a day's allocation. -/
structure TaskInvolvement where
  project_id : String
  task_id : String
  task_name : String
  hours : ℚ
  deriving DecidableEq, Repr

/-- The four severity tiers of a conflict. -/
inductive Severity where
  | LOW
  | MEDIUM
  | HIGH
  | CRITICAL
  deriving DecidableEq, Repr

/-- `Conflict` — an overallocation event for one resource on one date. -/
structure Conflict where
  resource_id : String
  resource_name : String
  conflict_date : ℕ
  allocated_hours : ℚ
  capacity_hours : ℚ
  overallocation_hours : ℚ
  overallocation_percent : ℚ
  severity : Severity
  tasks_involved : List TaskInvolvement
  projects_count : ℕ
  deriving DecidableEq, Repr

/-- `ImpactAnalysis` — impact summary of a candidate solution. -/
structure ImpactAnalysis where
  affected_tasks : List String
  days_impact : ℤ
  resources_needed : ℤ
  deriving DecidableEq, Repr

/-- `Solution` — an externally generated candidate solution.  The `strategy`
field is one of a fixed enumeration; it is kept as a string as in the JSON
interface. -/
structure Solution where
  conflict_id : String
  strategy : String
  description : String
  reasoning : String
  feasibility_score : ℚ
  complexity_score : ℚ
  preserves_deadline : Bool
  impact_analysis : ImpactAnalysis
  deriving DecidableEq, Repr

/-- `Weights` — the four ranking coefficients. -/
structure Weights where
  feasibility : ℚ := 3/10
  impact : ℚ := 1/4
  deadline : ℚ := 1/4
  simplicity : ℚ := 1/5
  deriving DecidableEq, Repr

/-- `RankedSolution` — a solution together with its computed rank score and a
snapshot of the weights used. -/
structure RankedSolution extends Solution where
  rank_score : ℚ
  weights : Weights
  deriving DecidableEq, Repr

/-- `Feedback` — operator feedback on one solution.  The free-form
`context : Dict[str, any]` field carries no behavior in the engine and is
omitted from the embedding. -/
structure Feedback where
  solution_id : String
  accepted : Bool
  manager_rating : ℕ
  implementation_result : String
  effectiveness_score : ℚ
  deriving DecidableEq, Repr

/-- `AgentState` — the shared run context threaded through the state machine.
`timestamps` keeps only the ordered list of stage keys recorded (the attached
wall-clock values carry no engine behavior). -/
structure AgentState where
  execution_id : String
  stage : String
  iterations : ℕ
  project_ids : List String
  start_date : ℕ
  end_date : ℕ
  callback_url : Option String
  resources : List Resource
  assignments : List Assignment
  consolidated_resources : List ConsolidatedResource
  conflicts : List Conflict
  total_conflicts : ℕ
  critical_conflicts : ℕ
  solutions : List Solution
  total_solutions : ℕ
  weights : Weights
  ranked_solutions : List RankedSolution
  feedback_history : List Feedback
  should_continue : Bool
  trigger_pattern_analysis : Bool
  timestamps : List String
  errors : List String
  deriving DecidableEq, Repr

/-- `create_initial_state` from `models/state.py` (data lists empty; the
caller of the workflow fills `resources`/`assignments` before invoking). -/
def create_initial_state (execution_id : String) (project_ids : List String)
    (start_date end_date : ℕ) (callback_url : Option String) : AgentState where
  execution_id := execution_id
  stage := "initialization"
  iterations := 0
  project_ids := project_ids
  start_date := start_date
  end_date := end_date
  callback_url := callback_url
  resources := []
  assignments := []
  consolidated_resources := []
  conflicts := []
  total_conflicts := 0
  critical_conflicts := 0
  solutions := []
  total_solutions := 0
  weights := {}
  ranked_solutions := []
  feedback_history := []
  should_continue := true
  trigger_pattern_analysis := false
  timestamps := []
  errors := []

/-! ## Agent 1: consolidator (`agents/consolidator.py`) -/

/-- The fresh `ConsolidatedResource` built from the first raw `Resource` seen
for a normalized email key. -/
def mkConsolidated (r : Resource) : ConsolidatedResource where
  id := r.id
  name := r.name
  email := normEmail r.email
  role := r.role
  capacity := r.max_capacity_hours_per_day
  department := r.department
  skills := r.skill_tags
  assignments := []

/-- One step of the first pass: register a raw resource under its normalized
email unless the key is already present. -/
def consolStep (m : List ConsolidatedResource) (r : Resource) :
    List ConsolidatedResource :=
  if m.any (fun c => c.email == normEmail r.email) then m
  else m ++ [mkConsolidated r]

/-- First pass of `consolidator_agent`: build the insertion-ordered map from
normalized email to consolidated resource (first resource seen for a key
wins). -/
def consolidateResources (resources : List Resource) : List ConsolidatedResource :=
  resources.foldl consolStep []

/-- `next((r for r in resources if r.id == assignment.resource_id), None)`. -/
def findResource (resources : List Resource) (rid : String) : Option Resource :=
  resources.find? (fun r => r.id == rid)

/-- Append an assignment to the consolidated resource keyed by `key`
(no-op when the key is absent, mirroring the guarded dict access). -/
def addAssignment (m : List ConsolidatedResource) (key : String)
    (a : Assignment) : List ConsolidatedResource :=
  m.map (fun c =>
    if c.email = key then { c with assignments := c.assignments ++ [a] } else c)

/-- One step of the second pass: resolve an assignment's resource and append
it under that resource's normalized email; unresolved references are
skipped. -/
def aggStep (resources : List Resource) (m : List ConsolidatedResource)
    (a : Assignment) : List ConsolidatedResource :=
  match findResource resources a.resource_id with
  | none => m
  | some r => addAssignment m (normEmail r.email) a

/-- Second pass of `consolidator_agent`: aggregate assignments under their
resource's normalized email. -/
def consolidator_core (resources : List Resource) (assignments : List Assignment) :
    List ConsolidatedResource :=
  assignments.foldl (aggStep resources) (consolidateResources resources)

/-- A consolidated resource with its aggregated assignments erased; used to
state that the two consolidation passes preserve all identity fields. -/
def stripAssignments (c : ConsolidatedResource) : ConsolidatedResource :=
  { c with assignments := [] }

/-- The warnings `consolidator_agent` emits via `logger.warning` (one per
assignment whose `resource_id` does not resolve). -/
def consolidator_warnings (resources : List Resource)
    (assignments : List Assignment) : List String :=
  (assignments.filter (fun a => (findResource resources a.resource_id).isNone)).map
    (fun a => "Assignment " ++ a.id ++ " references unknown resource " ++ a.resource_id)

/-- `consolidator_agent`: state update of agent 1. -/
def consolidator_agent (s : AgentState) : AgentState :=
  { s with
    consolidated_resources := consolidator_core s.resources s.assignments
    stage := "consolidation_complete"
    timestamps := s.timestamps ++ ["consolidation_complete"] }

/-! ## Agent 2: detector (`agents/detector.py`) -/

/-- `classify_severity` — tiers by overallocation percentage. -/
def classify_severity (overallocation_percent : ℚ) : Severity :=
  if overallocation_percent < 25 then .LOW
  else if overallocation_percent < 50 then .MEDIUM
  else if overallocation_percent < 100 then .HIGH
  else .CRITICAL

/-- One day's ledger entry: its date, contributing task fragments, and the
accumulated total hours. -/
structure DayEntry where
  date : ℕ
  tasks : List TaskInvolvement
  total_hours : ℚ
  deriving DecidableEq, Repr

/-- The per-resource daily allocation ledger, keyed by date.  Models the
insertion-ordered Python dict `daily_allocation`. -/
abbrev Ledger := List (ℕ × DayEntry)

/-- Fold one task fragment into the ledger at date `d` (initializing the day
with zero hours and no tasks if absent, then appending). -/
def addTask (led : Ledger) (d : ℕ) (ti : TaskInvolvement) : Ledger :=
  if led.any (fun p => p.1 == d) then
    led.map (fun p =>
      if p.1 = d then
        (p.1, { date := p.2.date
                tasks := p.2.tasks ++ [ti]
                total_hours := p.2.total_hours + ti.hours })
      else p)
  else
    led ++ [(d, { date := d, tasks := [ti], total_hours := 0 + ti.hours })]

/-- Distribute one assignment's hours evenly over its weekdays and fold them
into the ledger; zero-weekday assignments are skipped. -/
def processAssignment (led : Ledger) (a : Assignment) : Ledger :=
  let business_days := get_business_days a.start_date a.end_date
  if business_days = 0 then led
  else
    let hours_per_day : ℚ := a.total_work_hours / (business_days : ℚ)
    ((dateRange a.start_date a.end_date).filter (fun d => isWeekday d)).foldl
      (fun l d =>
        addTask l d
          { project_id := a.project_id
            task_id := a.task_id
            task_name := a.task_name
            hours := hours_per_day })
      led

/-- The full daily ledger of a resource's assignment list. -/
def buildLedger (assignments : List Assignment) : Ledger :=
  assignments.foldl processAssignment []

/-- The warnings `detector_agent` emits via `logger.warning` (one per
assignment with no business days). -/
def detector_warnings (consolidated : List ConsolidatedResource) : List String :=
  ((consolidated.map (fun r => r.assignments)).flatten.filter
      (fun a => get_business_days a.start_date a.end_date == 0)).map
    (fun a => "Assignment " ++ a.id ++ " has no business days")

/-- Build the `Conflict` record for an overallocated day of a resource. -/
def mkConflict (r : ConsolidatedResource) (e : DayEntry) : Conflict :=
  let overallocation_hours := e.total_hours - r.capacity
  let overallocation_percent := overallocation_hours / r.capacity * 100
  { resource_id := r.id
    resource_name := r.name
    conflict_date := e.date
    allocated_hours := pyRound 2 e.total_hours
    capacity_hours := r.capacity
    overallocation_hours := pyRound 2 overallocation_hours
    overallocation_percent := pyRound 1 overallocation_percent
    severity := classify_severity overallocation_percent
    tasks_involved := e.tasks
    projects_count := ((e.tasks.map (fun t => t.project_id)).dedup).length }

/-- The conflicts of one consolidated resource, in ledger (insertion) order. -/
def resourceConflicts (r : ConsolidatedResource) : List Conflict :=
  ((buildLedger r.assignments).filter (fun p => r.capacity < p.2.total_hours)).map
    (fun p => mkConflict r p.2)

/-- `severity_order` — the numeric severity rank used as a sort key. -/
def severity_order : Severity → ℕ
  | .CRITICAL => 4
  | .HIGH => 3
  | .MEDIUM => 2
  | .LOW => 1

/-! ### Stable sorting, as Python's `list.sort` -/

/-- Comparison on index-annotated elements by a two-component rational key,
breaking ties by the original index.  This is a total order, so sorting by it
yields exactly the stable sort by `(k1, k2)` that Python's `list.sort`
performs. -/
def pyKeyLE (k1 k2 : α → ℚ) (x y : ℕ × α) : Prop :=
  k1 x.2 < k1 y.2 ∨
    (k1 x.2 = k1 y.2 ∧
      (k2 x.2 < k2 y.2 ∨ (k2 x.2 = k2 y.2 ∧ x.1 ≤ y.1)))

instance pyKeyLE.instDecidableRel (k1 k2 : α → ℚ) : DecidableRel (pyKeyLE k1 k2) :=
  fun x y => by unfold pyKeyLE; infer_instance

/-- Python `xs.sort(key=lambda x: (k1 x, k2 x))`: the stable ascending sort by
the lexicographic key, realized by sorting `(index, element)` pairs under the
total order `pyKeyLE`. -/
def pyStableSort (k1 k2 : α → ℚ) (xs : List α) : List α :=
  (xs.enum.insertionSort (pyKeyLE k1 k2)).map Prod.snd

/-- The detector's final sort: key `(-severity_order, -overallocation_percent)`. -/
def sortConflicts (cs : List Conflict) : List Conflict :=
  pyStableSort (fun c => -(severity_order c.severity : ℚ))
    (fun c => -c.overallocation_percent) cs

/-- `detector_agent`: state update of agent 2. -/
def detector_agent (s : AgentState) : AgentState :=
  let conflicts :=
    sortConflicts ((s.consolidated_resources.map resourceConflicts).flatten)
  { s with
    conflicts := conflicts
    total_conflicts := conflicts.length
    critical_conflicts := conflicts.countP (fun c => c.severity == .CRITICAL)
    stage := "detection_complete"
    timestamps := s.timestamps ++ ["detection_complete"] }

/-! ## Agent 3: generator (`agents/generator.py`) -/

/-- `generator_agent`: the external call / JSON parse / flatten block is
modelled by its outcome `gen`; any exception in it lands in the `.error`
branch. -/
def generator_agent (gen : Except String (List Solution)) (s : AgentState) :
    AgentState :=
  if s.conflicts.isEmpty then
    { s with
      solutions := []
      total_solutions := 0
      stage := "generation_complete"
      errors := s.errors ++ ["No conflicts to generate solutions"] }
  else
    match gen with
    | .ok sols =>
      { s with
        solutions := sols
        total_solutions := sols.length
        stage := "generation_complete"
        timestamps := s.timestamps ++ ["generation_complete"] }
    | .error e =>
      { s with
        solutions := []
        total_solutions := 0
        stage := "generation_failed"
        errors := s.errors ++ ["Generation failed: " ++ e] }

/-! ## Agent 4: ranker (`agents/ranker.py`) -/

/-- `calculate_rank_score` — the weighted composite score, rounded to 3
decimals. -/
def calculate_rank_score (solution : Solution) (weights : Weights) : ℚ :=
  let feasibility_score := solution.feasibility_score
  let impact_score := 1 - solution.complexity_score
  let deadline_score : ℚ := if solution.preserves_deadline then 1 else 3/10
  let simplicity_score := 1 - solution.complexity_score
  pyRound 3
    (feasibility_score * weights.feasibility +
      impact_score * weights.impact +
      deadline_score * weights.deadline +
      simplicity_score * weights.simplicity)

/-- Attach rank scores and the weight snapshot to each solution, in input
order. -/
def rankSolutions (weights : Weights) (solutions : List Solution) :
    List RankedSolution :=
  solutions.map (fun solution =>
    { toSolution := solution
      rank_score := calculate_rank_score solution weights
      weights := weights })

/-- The ranker's sort: `sort(key=rank_score, reverse=True)`, i.e. the stable
descending sort by score. -/
def sortRanked (rs : List RankedSolution) : List RankedSolution :=
  pyStableSort (fun r => -r.rank_score) (fun _ => 0) rs

/-- `ranker_agent`: state update of agent 4. -/
def ranker_agent (s : AgentState) : AgentState :=
  if s.solutions.isEmpty then
    { s with ranked_solutions := [], stage := "ranking_complete" }
  else
    { s with
      ranked_solutions := sortRanked (rankSolutions s.weights s.solutions)
      stage := "ranking_complete"
      timestamps := s.timestamps ++ ["ranking_complete"] }

/-! ## Orchestrator (`workflow.py`) -/

/-- `should_generate_solutions` — conditional edge out of `detect`. -/
def should_generate_solutions (s : AgentState) : Bool :=
  0 < s.conflicts.length

/-- `should_continue_iteration` — conditional edge out of `adjust_weights`. -/
def should_continue_iteration (s : AgentState) : Bool :=
  s.iterations < 3 && s.trigger_pattern_analysis

/-- The pipeline from `detect` to a terminal state:
`detect → {generate → rank | end}`.  Note the edge `generate → rank` is
unconditional. -/
def detectPipeline (gen : Except String (List Solution)) (s : AgentState) :
    AgentState :=
  let s2 := detector_agent s
  if should_generate_solutions s2 then ranker_agent (generator_agent gen s2)
  else s2

/-- The main workflow run: `consolidate → detect → {generate → rank | end}`. -/
def runPipeline (gen : Except String (List Solution)) (s : AgentState) :
    AgentState :=
  detectPipeline gen (consolidator_agent s)

/-- Modelled from the spec: the weight-adjustment agent lives in
`agents/learning.py`, which is not part of the sources; §4.4 specifies only
that adjustment is a pure function `(history, weights) → (weights, trigger)`
setting `trigger_pattern_analysis`.  The policy is the parameter `adjust`. -/
def weight_adjuster_agent
    (adjust : List Feedback → Weights → Weights × Bool) (s : AgentState) :
    AgentState :=
  let p := adjust s.feedback_history s.weights
  { s with weights := p.1, trigger_pattern_analysis := p.2 }

/-- Modelled from the spec: one invocation of the feedback entry point
`feedback → analyze_patterns → adjust_weights → {detect | end}`
(`agents/learning.py` is not in the sources).  Per §4.5, the loop-back to
`detect` fires iff `should_continue_iteration`, and each loop-back increments
the iteration counter by one before re-entering `detect`.  Returns the new
state and whether the loop-back to `detect` fired. -/
def feedbackCycle (adjust : List Feedback → Weights → Weights × Bool)
    (gen : Except String (List Solution)) (fb : Feedback) (s : AgentState) :
    AgentState × Bool :=
  let s1 := { s with feedback_history := s.feedback_history ++ [fb] }
  let s2 := weight_adjuster_agent adjust s1
  if should_continue_iteration s2 then
    (detectPipeline gen { s2 with iterations := s2.iterations + 1 }, true)
  else (s2, false)

/-- One feedback submission applied to an accumulated (state, loop-back
count) pair. -/
def feedbackStep (adjust : List Feedback → Weights → Weights × Bool)
    (gen : Except String (List Solution)) (p : AgentState × ℕ)
    (fb : Feedback) : AgentState × ℕ :=
  let q := feedbackCycle adjust gen fb p.1
  (q.1, p.2 + if q.2 then 1 else 0)

/-- Run a sequence of feedback submissions against a checkpointed run,
counting how many times the `adjust_weights → detect` loop-back fired. -/
def runFeedbacks (adjust : List Feedback → Weights → Weights × Bool)
    (gen : Except String (List Solution)) (fbs : List Feedback)
    (s : AgentState) : AgentState × ℕ :=
  fbs.foldl (feedbackStep adjust gen) (s, 0)

/-- The state handed to the workflow by `run_analysis`: the initial state with
the fetched resources and assignments filled in. -/
def initialStateWithData (execution_id : String) (project_ids : List String)
    (start_date end_date : ℕ) (callback_url : Option String)
    (resources : List Resource) (assignments : List Assignment) : AgentState :=
  { create_initial_state execution_id project_ids start_date end_date callback_url with
    resources := resources
    assignments := assignments }

/-! ## Concrete fixtures used by witnesses, counterexamples and sanity
checks -/

/-- The strict order achieved between any two distinct positions of the
stable sort's output: strictly smaller first key, or equal first key and
strictly smaller second key, or equal keys and smaller original index. -/
def pyKeyLT (k1 k2 : α → ℚ) (x y : ℕ × α) : Prop :=
  k1 x.2 < k1 y.2 ∨
    (k1 x.2 = k1 y.2 ∧
      (k2 x.2 < k2 y.2 ∨ (k2 x.2 = k2 y.2 ∧ x.1 < y.1)))

/-- Well-formedness of the daily ledger: keys are distinct, each entry's
`date` equals its key, and each entry's `total_hours` is exactly the sum of
its task fragments' hours. -/
def LedgerWF (led : Ledger) : Prop :=
  (led.map Prod.fst).Nodup ∧
    ∀ p ∈ led, p.2.date = p.1 ∧
      p.2.total_hours = (p.2.tasks.map (fun t => t.hours)).sum

/-- A resource whose single one-day assignment produces an unrounded
overallocation percentage of 24.96: capacity 8, 9.9968 hours on a Monday. -/
def rLow : ConsolidatedResource :=
  { id := "res-low", name := "Maria", email := "maria@company.com", role := "Eng"
    capacity := 8, department := none, skills := []
    assignments :=
      [{ id := "asn-low", project_id := "proj-1", resource_id := "res-low"
         task_id := "task-1", task_name := "Revisao", start_date := 0
         end_date := 0, allocated_units := 1, total_work_hours := 99968/10000
         is_on_critical_path := false, slack_days := 0 }] }

/-- The single ledger entry of `rLow` (date 0, one fragment, 9.9968 hours). -/
def eLow : DayEntry :=
  { date := 0
    tasks := [{ project_id := "proj-1", task_id := "task-1"
                task_name := "Revisao", hours := 99968/10000 }]
    total_hours := 0 + 99968/10000 }

/-- The consolidated resource of the source's `test_detector_agent`: capacity
8, a 5-weekday 40-hour assignment (days 0-4) overlapped on days 2-4 by a
3-weekday 24-hour assignment. -/
def rTest : ConsolidatedResource :=
  { id := "res-1", name := "Joao", email := "joao@company.com", role := "Eng"
    capacity := 8, department := none, skills := []
    assignments :=
      [{ id := "asn-1", project_id := "proj-1", resource_id := "res-1"
         task_id := "task-1", task_name := "Fundacao", start_date := 0
         end_date := 4, allocated_units := 1, total_work_hours := 40
         is_on_critical_path := false, slack_days := 0 },
       { id := "asn-2", project_id := "proj-2", resource_id := "res-1"
         task_id := "task-2", task_name := "Estrutura", start_date := 2
         end_date := 4, allocated_units := 1, total_work_hours := 24
         is_on_critical_path := false, slack_days := 0 }] }

def resA : Resource :=
  { id := "res-1", name := "Joao", email := "joao.silva@company.com", role := "Eng"
    max_capacity_hours_per_day := 8, department := none, skill_tags := [] }

def resB : Resource :=
  { id := "res-2", name := "Joao", email := " JOAO.SILVA@company.com", role := "Eng"
    max_capacity_hours_per_day := 8, department := none, skill_tags := [] }

def asnA : Assignment :=
  { id := "asn-1", project_id := "proj-1", resource_id := "res-1"
    task_id := "task-1", task_name := "Fundacao", start_date := 0, end_date := 4
    allocated_units := 1, total_work_hours := 40
    is_on_critical_path := false, slack_days := 0 }

def asnB : Assignment :=
  { id := "asn-2", project_id := "proj-2", resource_id := "res-2"
    task_id := "task-2", task_name := "Estrutura", start_date := 7, end_date := 11
    allocated_units := 1, total_work_hours := 20
    is_on_critical_path := false, slack_days := 0 }

/-- The day-2 ledger entry of `rTest`: two 8-hour fragments, 16 hours. -/
def eTest : DayEntry :=
  { date := 2
    tasks := [{ project_id := "proj-1", task_id := "task-1"
                task_name := "Fundacao", hours := 8 },
              { project_id := "proj-2", task_id := "task-2"
                task_name := "Estrutura", hours := 8 }]
    total_hours := 16 }

/-- A one-weekday 16-hour assignment of `resA`, guaranteed to overallocate. -/
def asnOver : Assignment :=
  { id := "asn-over", project_id := "proj-1", resource_id := "res-1"
    task_id := "task-9", task_name := "Pico", start_date := 0, end_date := 0
    allocated_units := 1, total_work_hours := 16
    is_on_critical_path := false, slack_days := 0 }

/-- An initial run state whose detection pass finds exactly one conflict. -/
def sConf : AgentState :=
  initialStateWithData "exec-conf" ["proj-1"] 0 4 none [resA] [asnOver]

/-- An initial run state whose detection pass finds no conflict (8h/day over
5 weekdays against capacity 8). -/
def sNoConf : AgentState :=
  initialStateWithData "exec-ok" ["proj-1"] 0 4 none [resA] [asnA]

/-- A concrete feedback record for exercising the feedback cycle. -/
def fbTest : Feedback :=
  { solution_id := "sol-1", accepted := true, manager_rating := 5
    implementation_result := "success", effectiveness_score := 1 }

/-- A fresh run state for feedback-cycle tests (no data, iteration 0). -/
def sFb : AgentState := create_initial_state "exec-fb" [] 0 0 none

/-- An assignment referencing a resource id that does not exist. -/
def asnGhost : Assignment :=
  { id := "asn-ghost", project_id := "proj-1", resource_id := "res-404"
    task_id := "task-7", task_name := "Fantasma", start_date := 0, end_date := 0
    allocated_units := 1, total_work_hours := 8
    is_on_critical_path := false, slack_days := 0 }

/-- An assignment whose whole date range is a weekend (days 5-6). -/
def asnWknd : Assignment :=
  { id := "asn-wknd", project_id := "proj-1", resource_id := "res-1"
    task_id := "task-8", task_name := "Plantao", start_date := 5, end_date := 6
    allocated_units := 1, total_work_hours := 8
    is_on_critical_path := false, slack_days := 0 }

/-- A run whose only assignment references an unknown resource. -/
def sGhost : AgentState :=
  initialStateWithData "exec-ghost" ["proj-1"] 0 4 none [resA] [asnGhost]

/-- A run whose only assignment covers zero weekdays. -/
def sWknd : AgentState :=
  initialStateWithData "exec-wknd" ["proj-1"] 0 6 none [resA] [asnWknd]

/-! ## Generic helper lemmas -/

/-- A property preserved by every fold step holds of the fold. -/
theorem foldlPreserve {α β : Type} (P : β → Prop) {f : β → α → β}
    (step : ∀ b a, P b → P (f b a)) :
    ∀ (l : List α) (b : β), P b → P (l.foldl f b) := by
  intro l
  induction l with
  | nil => intro b h; simpa using h
  | cons a t ih => intro b h; exact ih _ (step _ _ h)

/-- In an association list with no duplicate keys, the key determines the
value. -/
theorem keyUnique {β : Type} {l : List (ℕ × β)} (hnd : (l.map Prod.fst).Nodup)
    {d : ℕ} {b b' : β} (h : (d, b) ∈ l) (h' : (d, b') ∈ l) : b = b' := by
  induction l with
  | nil => cases h
  | cons p t ih =>
    simp only [List.map_cons, List.nodup_cons] at hnd
    rcases List.mem_cons.mp h with rfl | hmem
    · rcases List.mem_cons.mp h' with heq | hmem'
      · exact congrArg Prod.snd heq.symm
      · exact absurd (List.mem_map_of_mem Prod.fst hmem') (by simpa using hnd.1)
    · rcases List.mem_cons.mp h' with rfl | hmem'
      · exact absurd (List.mem_map_of_mem Prod.fst hmem) (by simpa using hnd.1)
      · exact ih hnd.2 hmem hmem'

/-! ## Stable sort: specification of `pyStableSort` -/

theorem pyKeyLE_trans (k1 k2 : α → ℚ) (x y z : ℕ × α)
    (hxy : pyKeyLE k1 k2 x y) (hyz : pyKeyLE k1 k2 y z) : pyKeyLE k1 k2 x z := by
  unfold pyKeyLE at *
  rcases hxy with h1 | ⟨e1, h1⟩
  · rcases hyz with h2 | ⟨e2, _⟩
    · exact Or.inl (lt_trans h1 h2)
    · exact Or.inl (e2 ▸ h1)
  · rcases hyz with h2 | ⟨e2, h2⟩
    · exact Or.inl (e1 ▸ h2)
    · refine Or.inr ⟨e1.trans e2, ?_⟩
      rcases h1 with h1 | ⟨f1, h1⟩
      · rcases h2 with h2 | ⟨f2, _⟩
        · exact Or.inl (lt_trans h1 h2)
        · exact Or.inl (f2 ▸ h1)
      · rcases h2 with h2 | ⟨f2, h2⟩
        · exact Or.inl (f1 ▸ h2)
        · exact Or.inr ⟨f1.trans f2, le_trans h1 h2⟩

theorem pyKeyLE_total (k1 k2 : α → ℚ) (x y : ℕ × α) :
    pyKeyLE k1 k2 x y ∨ pyKeyLE k1 k2 y x := by
  unfold pyKeyLE
  rcases lt_trichotomy (k1 x.2) (k1 y.2) with h | h | h
  · exact Or.inl (Or.inl h)
  · rcases lt_trichotomy (k2 x.2) (k2 y.2) with g | g | g
    · exact Or.inl (Or.inr ⟨h, Or.inl g⟩)
    · rcases Nat.le_total x.1 y.1 with i | i
      · exact Or.inl (Or.inr ⟨h, Or.inr ⟨g, i⟩⟩)
      · exact Or.inr (Or.inr ⟨h.symm, Or.inr ⟨g.symm, i⟩⟩)
    · exact Or.inr (Or.inr ⟨h.symm, Or.inl g⟩)
  · exact Or.inr (Or.inl h)

instance pyKeyLEIsTrans (k1 k2 : α → ℚ) : IsTrans (ℕ × α) (pyKeyLE k1 k2) :=
  ⟨pyKeyLE_trans k1 k2⟩

instance pyKeyLEIsTotal (k1 k2 : α → ℚ) : IsTotal (ℕ × α) (pyKeyLE k1 k2) :=
  ⟨pyKeyLE_total k1 k2⟩

theorem pyKeyLT_of_le_ne (k1 k2 : α → ℚ) (x y : ℕ × α)
    (hle : pyKeyLE k1 k2 x y) (hne : x.1 ≠ y.1) : pyKeyLT k1 k2 x y := by
  unfold pyKeyLE at hle
  unfold pyKeyLT
  rcases hle with h | ⟨e1, h⟩
  · exact Or.inl h
  · refine Or.inr ⟨e1, ?_⟩
    rcases h with h | ⟨e2, h⟩
    · exact Or.inl h
    · exact Or.inr ⟨e2, lt_of_le_of_ne h hne⟩

/-- Characterization of `pyStableSort`: its output is the projection of a
permutation of the index-annotated input which is strictly sorted by
`(k1, k2, original index)`.  Such a list is unique, so this pins the output
down to exactly the stable ascending sort by `(k1, k2)`. -/
theorem pyStableSort_spec (k1 k2 : α → ℚ) (xs : List α) :
    ∃ ys : List (ℕ × α),
      ys.Perm xs.enum ∧ ys.Pairwise (pyKeyLT k1 k2) ∧
        pyStableSort k1 k2 xs = ys.map Prod.snd := by
  refine ⟨xs.enum.insertionSort (pyKeyLE k1 k2),
    List.perm_insertionSort _ _, ?_, rfl⟩
  have hle : (xs.enum.insertionSort (pyKeyLE k1 k2)).Pairwise (pyKeyLE k1 k2) :=
    List.sorted_insertionSort (pyKeyLE k1 k2) xs.enum
  have hperm : ((xs.enum.insertionSort (pyKeyLE k1 k2)).map Prod.fst).Perm
      (xs.enum.map Prod.fst) :=
    (List.perm_insertionSort _ _).map Prod.fst
  have hnd : ((xs.enum.insertionSort (pyKeyLE k1 k2)).map Prod.fst).Nodup := by
    refine hperm.symm.nodup ?_
    rw [List.enum_map_fst]
    exact List.nodup_range _
  have hne : (xs.enum.insertionSort (pyKeyLE k1 k2)).Pairwise
      (fun x y => x.1 ≠ y.1) := List.pairwise_map.mp hnd
  exact (hle.and hne).imp (fun h => pyKeyLT_of_le_ne k1 k2 _ _ h.1 h.2)

/-! ## Ledger invariants (detector) -/

theorem ledgerWF_nil : LedgerWF [] := by
  constructor
  · simp
  · intro p hp; cases hp

theorem addTask_wf {led : Ledger} (h : LedgerWF led) (d : ℕ)
    (ti : TaskInvolvement) : LedgerWF (addTask led d ti) := by
  unfold addTask
  by_cases hd : led.any (fun p => p.1 == d)
  · rw [if_pos hd]
    obtain ⟨hnd, hent⟩ := h
    constructor
    · have : (led.map (fun p : ℕ × DayEntry =>
          if p.1 = d then
            (p.1, { date := p.2.date
                    tasks := p.2.tasks ++ [ti]
                    total_hours := p.2.total_hours + ti.hours })
          else p)).map Prod.fst = led.map Prod.fst := by
        rw [List.map_map]
        refine List.map_congr_left ?_
        intro p _
        by_cases hp : p.1 = d <;> simp [hp]
      rw [this]; exact hnd
    · intro p hp
      rcases List.mem_map.mp hp with ⟨q, hq, hqp⟩
      by_cases hqd : q.1 = d
      · rw [if_pos hqd] at hqp
        obtain ⟨h1, h2⟩ := hent q hq
        subst hqp
        refine ⟨h1, ?_⟩
        simp only [List.map_append, List.sum_append, List.map_cons,
          List.map_nil, List.sum_cons, List.sum_nil]
        rw [h2]; ring
      · rw [if_neg hqd] at hqp
        subst hqp
        exact hent q hq
  · rw [if_neg hd]
    obtain ⟨hnd, hent⟩ := h
    have hdni : d ∉ led.map Prod.fst := by
      intro hmem
      rcases List.mem_map.mp hmem with ⟨q, hq, hqd⟩
      exact hd (List.any_eq_true.mpr ⟨q, hq, by simp [hqd]⟩)
    constructor
    · rw [List.map_append]
      refine List.Nodup.append hnd (by simp) ?_
      intro x hx hx'
      simp only [List.map_cons, List.map_nil, List.mem_cons,
        List.not_mem_nil, or_false] at hx'
      exact hdni (hx' ▸ hx)
    · intro p hp
      rcases List.mem_append.mp hp with hp | hp
      · exact hent p hp
      · simp only [List.mem_cons, List.not_mem_nil, or_false] at hp
        subst hp
        constructor
        · rfl
        · simp

theorem processAssignment_wf {led : Ledger} (h : LedgerWF led)
    (a : Assignment) : LedgerWF (processAssignment led a) := by
  unfold processAssignment
  by_cases hbd : get_business_days a.start_date a.end_date = 0
  · rw [if_pos hbd]; exact h
  · rw [if_neg hbd]
    show LedgerWF (List.foldl _ led _)
    exact foldlPreserve LedgerWF (fun l d hl => addTask_wf hl d _) _ led h

theorem buildLedger_wf (assignments : List Assignment) :
    LedgerWF (buildLedger assignments) := by
  unfold buildLedger
  exact foldlPreserve LedgerWF (fun l a hl => processAssignment_wf hl a) assignments [] ledgerWF_nil

/-- Membership in a resource's conflict list, unfolded. -/
theorem mem_resourceConflicts (r : ConsolidatedResource) (c : Conflict) :
    c ∈ resourceConflicts r ↔
      ∃ p, p ∈ buildLedger r.assignments ∧ r.capacity < p.2.total_hours ∧
        c = mkConflict r p.2 := by
  unfold resourceConflicts
  simp only [List.mem_map, List.mem_filter, decide_eq_true_eq]
  constructor
  · rintro ⟨p, ⟨hp, hlt⟩, rfl⟩
    exact ⟨p, hp, hlt, rfl⟩
  · rintro ⟨p, hp, hlt, rfl⟩
    exact ⟨p, ⟨hp, hlt⟩, rfl⟩

/-- The ledger entry a conflict with date `d` arose from is the unique entry
keyed `d`. -/
theorem conflict_entry_unique {r : ConsolidatedResource} {d : ℕ} {e : DayEntry}
    (hmem : (d, e) ∈ buildLedger r.assignments) {c : Conflict}
    (hc : c ∈ resourceConflicts r) (hcd : c.conflict_date = d) :
    r.capacity < e.total_hours ∧ c = mkConflict r e := by
  obtain ⟨hnd, hent⟩ := buildLedger_wf r.assignments
  obtain ⟨p, hp, hlt, rfl⟩ := (mem_resourceConflicts r c).mp hc
  have hpdate : p.2.date = p.1 := (hent p hp).1
  have hd2 : p.2.date = d := hcd
  have hpd : p.1 = d := hd2 ▸ hpdate.symm ▸ rfl
  have hdp : (d, p.2) ∈ buildLedger r.assignments := by
    rw [← hpd]
    exact Prod.mk.eta ▸ hp
  have hpe : p.2 = e := keyUnique hnd hdp hmem
  rw [hpe] at hlt ⊢
  exact ⟨hlt, rfl⟩

/-- C1: for every consolidated resource and every date in its daily ledger, a
conflict is emitted for that date iff the accumulated hours strictly exceed
the capacity; the emitted conflict stores the sum of the day's task-fragment
hours rounded to 2 decimals as `allocated_hours`, and the overallocation
percentage rounded to 1 decimal as `overallocation_percent`. -/
theorem conflict_emission_exact (r : ConsolidatedResource) (d : ℕ) (e : DayEntry)
    (hmem : (d, e) ∈ buildLedger r.assignments) :
    ((∃ c ∈ resourceConflicts r, c.conflict_date = d) ↔
      r.capacity < e.total_hours) ∧
    ∀ c ∈ resourceConflicts r, c.conflict_date = d →
      c.allocated_hours = pyRound 2 ((e.tasks.map (fun t => t.hours)).sum) ∧
      c.overallocation_percent =
        pyRound 1 (((e.tasks.map (fun t => t.hours)).sum - r.capacity) /
          r.capacity * 100) := by
  obtain ⟨hnd, hent⟩ := buildLedger_wf r.assignments
  have hsum : e.total_hours = (e.tasks.map (fun t => t.hours)).sum :=
    (hent (d, e) hmem).2
  have hdate : e.date = d := (hent (d, e) hmem).1
  constructor
  · constructor
    · rintro ⟨c, hc, hcd⟩
      exact (conflict_entry_unique hmem hc hcd).1
    · intro hlt
      refine ⟨mkConflict r e, (mem_resourceConflicts r _).mpr
        ⟨(d, e), hmem, hlt, rfl⟩, ?_⟩
      exact hdate
  · intro c hc hcd
    obtain ⟨hlt, rfl⟩ := conflict_entry_unique hmem hc hcd
    constructor
    · show pyRound 2 e.total_hours = _
      exact congrArg (pyRound 2) hsum
    · show pyRound 1 ((e.total_hours - r.capacity) / r.capacity * 100) = _
      rw [hsum]

/-- Witness for `conflict_emission_exact`: the day-2 entry of `rTest`. -/
theorem conflict_emission_exact_witness :
    ((∃ c ∈ resourceConflicts rTest, c.conflict_date = 2) ↔
      rTest.capacity < eTest.total_hours) ∧
    ∀ c ∈ resourceConflicts rTest, c.conflict_date = 2 →
      c.allocated_hours = pyRound 2 ((eTest.tasks.map (fun t => t.hours)).sum) ∧
      c.overallocation_percent =
        pyRound 1 (((eTest.tasks.map (fun t => t.hours)).sum - rTest.capacity) /
          rTest.capacity * 100) :=
  conflict_emission_exact rTest 2 eTest (by decide)

/-- C2: the severity classifier's tiers and the exact boundary behavior. -/
theorem severity_tiers :
    (∀ p : ℚ,
      (classify_severity p = .LOW ↔ p < 25) ∧
      (classify_severity p = .MEDIUM ↔ 25 ≤ p ∧ p < 50) ∧
      (classify_severity p = .HIGH ↔ 50 ≤ p ∧ p < 100) ∧
      (classify_severity p = .CRITICAL ↔ 100 ≤ p)) ∧
    classify_severity (2499/100) = .LOW ∧
    classify_severity 25 = .MEDIUM ∧
    classify_severity (4999/100) = .MEDIUM ∧
    classify_severity 50 = .HIGH ∧
    classify_severity (9999/100) = .HIGH ∧
    classify_severity 100 = .CRITICAL := by
  constructor
  · intro p
    unfold classify_severity
    split_ifs with h1 h2 h3 <;>
      refine ⟨⟨fun hh => ?_, fun hh => ?_⟩, ⟨fun hh => ?_, fun hh => ?_⟩,
        ⟨fun hh => ?_, fun hh => ?_⟩, ⟨fun hh => ?_, fun hh => ?_⟩⟩ <;>
      first
        | rfl
        | (exact absurd hh (by decide))
        | (exact ⟨by linarith, by linarith⟩)
        | (exfalso; linarith [hh.1, hh.2])
        | (exfalso; linarith)
        | linarith
  · exact ⟨by decide, by decide, by decide, by decide, by decide, by decide⟩

/-- C10: the stored severity is classified from the unrounded overallocation
percentage while the stored percentage is rounded to 1 decimal, so the two
stored fields need not satisfy the tier boundaries w.r.t. each other: `rLow`
yields a conflict with `overallocation_percent = 25.0` but severity `LOW`. -/
theorem severity_unrounded_vs_stored :
    (∀ (r : ConsolidatedResource) (d : ℕ) (e : DayEntry),
      (d, e) ∈ buildLedger r.assignments →
      ∀ c ∈ resourceConflicts r, c.conflict_date = d →
        c.severity =
          classify_severity ((e.total_hours - r.capacity) / r.capacity * 100) ∧
        c.overallocation_percent =
          pyRound 1 ((e.total_hours - r.capacity) / r.capacity * 100)) ∧
    ∃ c ∈ resourceConflicts rLow,
      c.overallocation_percent = 25 ∧ c.severity = .LOW ∧
        classify_severity c.overallocation_percent ≠ c.severity := by
  constructor
  · intro r d e hmem c hc hcd
    obtain ⟨hlt, rfl⟩ := conflict_entry_unique hmem hc hcd
    exact ⟨rfl, rfl⟩
  · exact ⟨mkConflict rLow eLow, by decide, by decide, by decide, by decide⟩

/-- Witness for `severity_unrounded_vs_stored`: its universally quantified
part applied to the concrete resource `rLow`. -/
theorem severity_unrounded_vs_stored_witness :
    (mkConflict rLow eLow).severity =
      classify_severity ((eLow.total_hours - rLow.capacity) / rLow.capacity * 100) ∧
    (mkConflict rLow eLow).overallocation_percent =
      pyRound 1 ((eLow.total_hours - rLow.capacity) / rLow.capacity * 100) :=
  severity_unrounded_vs_stored.1 rLow 0 eLow (by decide)
    (mkConflict rLow eLow) (by decide) (by decide)


/-! ## Claim C7: detector output ordering -/

/-- The claim-level strict order on annotated conflicts: higher severity rank
first, then higher stored overallocation percentage, ties in input order. -/
theorem conflict_order_of_pyKeyLT (x y : ℕ × Conflict)
    (h : pyKeyLT (fun c => -(severity_order c.severity : ℚ))
      (fun c => -c.overallocation_percent) x y) :
    severity_order y.2.severity < severity_order x.2.severity ∨
      (severity_order x.2.severity = severity_order y.2.severity ∧
        (y.2.overallocation_percent < x.2.overallocation_percent ∨
          (x.2.overallocation_percent = y.2.overallocation_percent ∧
            x.1 < y.1))) := by
  unfold pyKeyLT at h
  dsimp only at h
  rcases h with h | ⟨e1, h⟩
  · left
    have h2 : (severity_order y.2.severity : ℚ) < (severity_order x.2.severity : ℚ) := by
      linarith
    exact_mod_cast h2
  · right
    have e1n : (severity_order x.2.severity : ℚ) = (severity_order y.2.severity : ℚ) :=
      neg_inj.mp e1
    refine ⟨by exact_mod_cast e1n, ?_⟩
    rcases h with h | ⟨e2, h⟩
    · left; linarith
    · right; exact ⟨neg_inj.mp e2, h⟩

/-- C7: the detector's conflict list is the stable sort of the raw
per-resource conflicts by descending severity rank, then descending stored
overallocation percentage, ties kept in input order; in particular no element
has a lower (severity rank, percentage) pair than any later element. -/
theorem detector_conflicts_sorted (s : AgentState) :
    ∃ ys : List (ℕ × Conflict),
      ys.Perm ((s.consolidated_resources.map resourceConflicts).flatten).enum ∧
      ys.Pairwise (fun x y =>
        severity_order y.2.severity < severity_order x.2.severity ∨
          (severity_order x.2.severity = severity_order y.2.severity ∧
            (y.2.overallocation_percent < x.2.overallocation_percent ∨
              (x.2.overallocation_percent = y.2.overallocation_percent ∧
                x.1 < y.1)))) ∧
      (detector_agent s).conflicts = ys.map Prod.snd ∧
      (detector_agent s).conflicts.Pairwise (fun a b =>
        ¬(severity_order a.severity < severity_order b.severity ∨
          (severity_order a.severity = severity_order b.severity ∧
            a.overallocation_percent < b.overallocation_percent))) := by
  obtain ⟨ys, hperm, hpw, heq⟩ := pyStableSort_spec
    (fun c => -(severity_order c.severity : ℚ))
    (fun c => -c.overallocation_percent)
    ((s.consolidated_resources.map resourceConflicts).flatten)
  have hpw2 := hpw.imp (fun h => conflict_order_of_pyKeyLT _ _ h)
  have hconf : (detector_agent s).conflicts = ys.map Prod.snd := heq
  refine ⟨ys, hperm, hpw2, hconf, ?_⟩
  have hmapped : (ys.map Prod.snd).Pairwise (fun a b =>
      ¬(severity_order a.severity < severity_order b.severity ∨
        (severity_order a.severity = severity_order b.severity ∧
          a.overallocation_percent < b.overallocation_percent))) := by
    refine List.pairwise_map.mpr (hpw2.imp ?_)
    intro x y h contra
    rcases h with h | ⟨e1, h⟩
    · rcases contra with c | ⟨ce, _⟩
      · omega
      · omega
    · rcases contra with c | ⟨ce, cp⟩
      · omega
      · rcases h with h | ⟨e2, _⟩
        · linarith
        · linarith
  rw [hconf]
  exact hmapped

/-! ## Claim C6: rank score formula and ranker ordering -/

/-- C6: the rank score equals the spec's formula (rounded to 3 decimals), and
the ranked list is the stable descending sort by that score: it is the
projection of a permutation of the index-annotated scored solutions that is
strictly sorted by (score descending, input index ascending), and is pairwise
non-increasing in score. -/
theorem ranker_score_and_order (s : AgentState) :
    (∀ (sol : Solution) (w : Weights),
      calculate_rank_score sol w =
        pyRound 3
          (sol.feasibility_score * w.feasibility +
            (1 - sol.complexity_score) * w.impact +
            (if sol.preserves_deadline then (1 : ℚ) else 3/10) * w.deadline +
            (1 - sol.complexity_score) * w.simplicity)) ∧
    ∃ ys : List (ℕ × RankedSolution),
      ys.Perm (rankSolutions s.weights s.solutions).enum ∧
      ys.Pairwise (fun x y =>
        y.2.rank_score < x.2.rank_score ∨
          (x.2.rank_score = y.2.rank_score ∧ x.1 < y.1)) ∧
      (ranker_agent s).ranked_solutions = ys.map Prod.snd ∧
      (ranker_agent s).ranked_solutions.Pairwise (fun a b =>
        b.rank_score ≤ a.rank_score) := by
  constructor
  · intro sol w
    rfl
  · obtain ⟨ys, hperm, hpw, heq⟩ := pyStableSort_spec
      (fun r : RankedSolution => -r.rank_score) (fun _ => 0)
      (rankSolutions s.weights s.solutions)
    have hpw2 : ys.Pairwise (fun x y =>
        y.2.rank_score < x.2.rank_score ∨
          (x.2.rank_score = y.2.rank_score ∧ x.1 < y.1)) := by
      refine hpw.imp ?_
      intro x y h
      unfold pyKeyLT at h
      dsimp only at h
      rcases h with h | ⟨e1, h⟩
      · left; linarith
      · right
        refine ⟨neg_inj.mp e1, ?_⟩
        rcases h with h | ⟨_, h⟩
        · exact absurd h (lt_irrefl 0)
        · exact h
    by_cases hempty : s.solutions.isEmpty
    · refine ⟨[], ?_, ?_, ?_, ?_⟩
      · have : s.solutions = [] := List.isEmpty_iff.mp hempty
        simp [rankSolutions, this]
      · exact List.Pairwise.nil
      · simp [ranker_agent, hempty]
      · simp [ranker_agent, hempty]
    · have hproj : (ranker_agent s).ranked_solutions =
          sortRanked (rankSolutions s.weights s.solutions) := by
        unfold ranker_agent
        rw [if_neg hempty]
      refine ⟨ys, hperm, hpw2, ?_, ?_⟩
      · rw [hproj]
        exact heq
      · have hmapped : (ys.map Prod.snd).Pairwise
            (fun a b : RankedSolution => b.rank_score ≤ a.rank_score) := by
          refine List.pairwise_map.mpr (hpw2.imp ?_)
          intro x y h
          rcases h with h | ⟨e1, _⟩
          · exact le_of_lt h
          · exact le_of_eq e1.symm
        rw [hproj]
        unfold sortRanked
        rw [heq]
        exact hmapped

/-! ## Claim C3 (corrected): behavior on generation failure -/

/-- Counterexample to C3 as stated: on a run with one conflict where the
external generation step errors, the error is recorded and the solution list
is empty, but the final stage is `"ranking_complete"`, not
`"generation_failed"` — the workflow's unconditional `generate → rank` edge
lets the ranker overwrite the stage. -/
theorem generation_failure_stage_cex :
    (runPipeline (.error "API error") sConf).errors =
      ["Generation failed: API error"] ∧
    (runPipeline (.error "API error") sConf).solutions = [] ∧
    (runPipeline (.error "API error") sConf).stage = "ranking_complete" ∧
    (runPipeline (.error "API error") sConf).stage ≠ "generation_failed" := by
  refine ⟨by decide, by decide, by decide, by decide⟩

/-- C3 (amended): when the external generation step reports an error on a
conflicted run, the error message is appended to the errors list, the
solution and ranked-solution lists are empty, and the generator sets stage
`"generation_failed"`; but the run then proceeds through the ranker and
terminates with stage `"ranking_complete"`. -/
theorem generation_failure_behavior (s : AgentState) (e : String)
    (hconf : 0 < (detector_agent (consolidator_agent s)).conflicts.length) :
    (runPipeline (.error e) s).solutions = [] ∧
    (runPipeline (.error e) s).total_solutions = 0 ∧
    (runPipeline (.error e) s).ranked_solutions = [] ∧
    (runPipeline (.error e) s).errors =
      s.errors ++ ["Generation failed: " ++ e] ∧
    (generator_agent (.error e)
      (detector_agent (consolidator_agent s))).stage = "generation_failed" ∧
    (runPipeline (.error e) s).stage = "ranking_complete" := by
  have hgen : should_generate_solutions
      (detector_agent (consolidator_agent s)) = true := by
    unfold should_generate_solutions
    exact decide_eq_true hconf
  have hie : (detector_agent (consolidator_agent s)).conflicts.isEmpty = false := by
    have hne := List.length_pos.mp hconf
    cases h2 : (detector_agent (consolidator_agent s)).conflicts with
    | nil => exact absurd h2 hne
    | cons a t => rfl
  have hgenstate : generator_agent (.error e)
      (detector_agent (consolidator_agent s)) =
      { detector_agent (consolidator_agent s) with
        solutions := []
        total_solutions := 0
        stage := "generation_failed"
        errors := (detector_agent (consolidator_agent s)).errors ++
          ["Generation failed: " ++ e] } := by
    unfold generator_agent
    rw [hie]
    rfl
  have hrun : runPipeline (.error e) s =
      ranker_agent (generator_agent (.error e)
        (detector_agent (consolidator_agent s))) := by
    unfold runPipeline detectPipeline
    dsimp only
    rw [hgen]
    rfl
  have herr : (detector_agent (consolidator_agent s)).errors = s.errors := rfl
  rw [hrun, hgenstate]
  have hrank : ranker_agent
      { detector_agent (consolidator_agent s) with
        solutions := []
        total_solutions := 0
        stage := "generation_failed"
        errors := (detector_agent (consolidator_agent s)).errors ++
          ["Generation failed: " ++ e] } =
      { detector_agent (consolidator_agent s) with
        solutions := []
        total_solutions := 0
        stage := "ranking_complete"
        ranked_solutions := []
        errors := (detector_agent (consolidator_agent s)).errors ++
          ["Generation failed: " ++ e] } := by
    unfold ranker_agent
    rfl
  rw [hrank, herr]
  exact ⟨rfl, rfl, rfl, rfl, rfl, rfl⟩

/-- Witness for `generation_failure_behavior` at the concrete conflicted run
`sConf`. -/
theorem generation_failure_behavior_witness :
    (runPipeline (.error "boom") sConf).solutions = [] ∧
    (runPipeline (.error "boom") sConf).total_solutions = 0 ∧
    (runPipeline (.error "boom") sConf).ranked_solutions = [] ∧
    (runPipeline (.error "boom") sConf).errors =
      sConf.errors ++ ["Generation failed: " ++ "boom"] ∧
    (generator_agent (.error "boom")
      (detector_agent (consolidator_agent sConf))).stage = "generation_failed" ∧
    (runPipeline (.error "boom") sConf).stage = "ranking_complete" :=
  generation_failure_behavior sConf "boom" (by decide)

/-! ## Claim C8: empty conflict list ends the run before generation -/

/-- C8: if the detection pass yields no conflicts on a run that starts (as
every run does) with empty solution lists, the `detect → generate` branch is
not taken: the result equals the detector's output, is independent of the
external generator, ends at stage `"detection_complete"`, and has zero
solutions and zero ranked solutions. -/
theorem no_conflicts_no_generation (s : AgentState)
    (g g' : Except String (List Solution))
    (hsol : s.solutions = []) (htot : s.total_solutions = 0)
    (hrank : s.ranked_solutions = [])
    (hnc : (detector_agent (consolidator_agent s)).conflicts = []) :
    runPipeline g s = detector_agent (consolidator_agent s) ∧
    runPipeline g s = runPipeline g' s ∧
    (runPipeline g s).stage = "detection_complete" ∧
    (runPipeline g s).solutions = [] ∧
    (runPipeline g s).total_solutions = 0 ∧
    (runPipeline g s).ranked_solutions = [] := by
  have hgen : should_generate_solutions
      (detector_agent (consolidator_agent s)) = false := by
    unfold should_generate_solutions
    rw [hnc]
    rfl
  have hrun : ∀ gg : Except String (List Solution),
      runPipeline gg s = detector_agent (consolidator_agent s) := by
    intro gg
    unfold runPipeline detectPipeline
    dsimp only
    rw [hgen]
    rfl
  refine ⟨hrun g, (hrun g).trans (hrun g').symm, ?_, ?_, ?_, ?_⟩
  · rw [hrun g]; rfl
  · rw [hrun g]; exact hsol
  · rw [hrun g]; exact htot
  · rw [hrun g]; exact hrank

/-- Witness for `no_conflicts_no_generation` at the concrete conflict-free
run `sNoConf`, with two different generator outcomes. -/
theorem no_conflicts_no_generation_witness :
    runPipeline (.ok []) sNoConf =
      detector_agent (consolidator_agent sNoConf) ∧
    runPipeline (.ok []) sNoConf = runPipeline (.error "down") sNoConf ∧
    (runPipeline (.ok []) sNoConf).stage = "detection_complete" ∧
    (runPipeline (.ok []) sNoConf).solutions = [] ∧
    (runPipeline (.ok []) sNoConf).total_solutions = 0 ∧
    (runPipeline (.ok []) sNoConf).ranked_solutions = [] :=
  no_conflicts_no_generation sNoConf (.ok []) (.error "down")
    rfl rfl rfl (by decide)

/-! ## Claim C5: the feedback loop-back guard and the iteration cap -/

theorem detector_agent_iterations (s : AgentState) :
    (detector_agent s).iterations = s.iterations := rfl

theorem generator_agent_iterations (gen : Except String (List Solution))
    (s : AgentState) : (generator_agent gen s).iterations = s.iterations := by
  cases gen <;> by_cases h : s.conflicts.isEmpty <;>
    simp [generator_agent, h]

theorem ranker_agent_iterations (s : AgentState) :
    (ranker_agent s).iterations = s.iterations := by
  by_cases h : s.solutions.isEmpty <;> simp [ranker_agent, h]

theorem detectPipeline_iterations (gen : Except String (List Solution))
    (s : AgentState) : (detectPipeline gen s).iterations = s.iterations := by
  unfold detectPipeline
  dsimp only
  by_cases h : should_generate_solutions (detector_agent s)
  · rw [if_pos h, ranker_agent_iterations, generator_agent_iterations]
    rfl
  · rw [if_neg h]
    rfl

theorem feedbackCycle_fired_iff
    (adjust : List Feedback → Weights → Weights × Bool)
    (gen : Except String (List Solution)) (fb : Feedback) (s : AgentState) :
    (feedbackCycle adjust gen fb s).2 = true ↔
      (s.iterations < 3 ∧
        (adjust (s.feedback_history ++ [fb]) s.weights).2 = true) := by
  unfold feedbackCycle weight_adjuster_agent should_continue_iteration
  dsimp only
  by_cases h : (decide (s.iterations < 3) &&
      (adjust (s.feedback_history ++ [fb]) s.weights).2) = true
  · rw [if_pos h]
    simp only [Bool.and_eq_true, decide_eq_true_eq] at h
    simpa using h
  · rw [if_neg h]
    simp only [Bool.and_eq_true, decide_eq_true_eq] at h
    simpa using h

theorem feedbackCycle_eq (adjust : List Feedback → Weights → Weights × Bool)
    (gen : Except String (List Solution)) (fb : Feedback) (s : AgentState) :
    feedbackCycle adjust gen fb s =
      if should_continue_iteration (weight_adjuster_agent adjust
          { s with feedback_history := s.feedback_history ++ [fb] }) then
        (detectPipeline gen { weight_adjuster_agent adjust
            { s with feedback_history := s.feedback_history ++ [fb] } with
          iterations := s.iterations + 1 }, true)
      else (weight_adjuster_agent adjust
        { s with feedback_history := s.feedback_history ++ [fb] }, false) := rfl

theorem feedbackCycle_iterations
    (adjust : List Feedback → Weights → Weights × Bool)
    (gen : Except String (List Solution)) (fb : Feedback) (s : AgentState) :
    (feedbackCycle adjust gen fb s).1.iterations =
      s.iterations + (if (feedbackCycle adjust gen fb s).2 then 1 else 0) := by
  by_cases h : should_continue_iteration (weight_adjuster_agent adjust
      { s with feedback_history := s.feedback_history ++ [fb] }) = true
  · rw [feedbackCycle_eq, if_pos h]
    dsimp only
    rw [detectPipeline_iterations]
    rfl
  · rw [feedbackCycle_eq, if_neg h]
    rfl

/-- Invariant of the feedback fold: the iteration counter stays at most 3,
and the loop-back count equals the growth of the iteration counter. -/
theorem runFeedbacks_bound (adjust : List Feedback → Weights → Weights × Bool)
    (gen : Except String (List Solution)) :
    ∀ (fbs : List Feedback) (s : AgentState) (c : ℕ), s.iterations ≤ 3 →
      (fbs.foldl (feedbackStep adjust gen) (s, c)).1.iterations ≤ 3 ∧
        (fbs.foldl (feedbackStep adjust gen) (s, c)).2 + s.iterations =
          c + (fbs.foldl (feedbackStep adjust gen) (s, c)).1.iterations := by
  intro fbs
  induction fbs with
  | nil => intro s c h; exact ⟨h, rfl⟩
  | cons fb t ih =>
    intro s c h
    rw [List.foldl_cons]
    by_cases hf : (feedbackCycle adjust gen fb s).2 = true
    · have hlt : s.iterations < 3 :=
        ((feedbackCycle_fired_iff adjust gen fb s).mp hf).1
      have hit : (feedbackCycle adjust gen fb s).1.iterations =
          s.iterations + 1 := by
        rw [feedbackCycle_iterations, hf]
        rfl
      have hstep : feedbackStep adjust gen (s, c) fb =
          ((feedbackCycle adjust gen fb s).1, c + 1) := by
        unfold feedbackStep
        dsimp only
        rw [hf]
        rfl
      rw [hstep]
      obtain ⟨h1, h2⟩ := ih (feedbackCycle adjust gen fb s).1 (c + 1) (by omega)
      rw [hit] at h2
      exact ⟨h1, by omega⟩
    · have hf' : (feedbackCycle adjust gen fb s).2 = false := by
        revert hf
        cases (feedbackCycle adjust gen fb s).2 <;> simp
      have hit : (feedbackCycle adjust gen fb s).1.iterations = s.iterations := by
        rw [feedbackCycle_iterations, hf']
        rfl
      have hstep : feedbackStep adjust gen (s, c) fb =
          ((feedbackCycle adjust gen fb s).1, c) := by
        unfold feedbackStep
        dsimp only
        rw [hf']
        rfl
      rw [hstep]
      obtain ⟨h1, h2⟩ := ih (feedbackCycle adjust gen fb s).1 c (by omega)
      rw [hit] at h2
      exact ⟨h1, by omega⟩

/-- C5: the `adjust_weights → detect` loop-back is taken iff
`iterations < 3` and the trigger flag is set; consequently, across any
sequence of feedback submissions — even with an adjustment policy that always
sets the trigger — the orchestrator re-enters `detect` at most 3 times for
one execution. -/
theorem iteration_loopback_cap :
    (∀ s : AgentState, should_continue_iteration s = true ↔
      (s.iterations < 3 ∧ s.trigger_pattern_analysis = true)) ∧
    (∀ (adjust : List Feedback → Weights → Weights × Bool)
        (gen : Except String (List Solution)) (fb : Feedback) (s : AgentState),
      (feedbackCycle adjust gen fb s).2 = true ↔
        (s.iterations < 3 ∧
          (adjust (s.feedback_history ++ [fb]) s.weights).2 = true)) ∧
    (∀ (adjust : List Feedback → Weights → Weights × Bool)
        (gen : Except String (List Solution)) (fbs : List Feedback)
        (s : AgentState),
      (∀ h w, (adjust h w).2 = true) → s.iterations = 0 →
      (runFeedbacks adjust gen fbs s).2 ≤ 3) := by
  refine ⟨?_, feedbackCycle_fired_iff, ?_⟩
  · intro s
    unfold should_continue_iteration
    simp [Bool.and_eq_true]
  · intro adjust gen fbs s _ h0
    obtain ⟨h1, h2⟩ := runFeedbacks_bound adjust gen fbs s 0 (by omega)
    unfold runFeedbacks
    omega

/-- Witness for `iteration_loopback_cap`: an always-trigger adjustment policy
run over five feedback submissions from a fresh state fires the loop-back
exactly 3 times. -/
theorem iteration_loopback_cap_witness :
    (runFeedbacks (fun _ w => (w, true)) (.ok [])
      [fbTest, fbTest, fbTest, fbTest, fbTest] sFb).2 ≤ 3 ∧
    (runFeedbacks (fun _ w => (w, true)) (.ok [])
      [fbTest, fbTest, fbTest, fbTest, fbTest] sFb).2 = 3 :=
  ⟨iteration_loopback_cap.2.2 (fun _ w => (w, true)) (.ok [])
    [fbTest, fbTest, fbTest, fbTest, fbTest] sFb (fun _ _ => rfl) rfl,
   by decide⟩

/-! ## Consolidator: first-pass lemmas -/

theorem consolFold_length : ∀ (rs : List Resource)
    (m : List ConsolidatedResource),
    (rs.foldl consolStep m).length ≤ m.length + rs.length := by
  intro rs
  induction rs with
  | nil => intro m; simp
  | cons r t ih =>
    intro m
    rw [List.foldl_cons]
    have h1 := ih (consolStep m r)
    have h2 : (consolStep m r).length ≤ m.length + 1 := by
      unfold consolStep
      split_ifs <;> simp
    simp only [List.length_cons]
    omega

theorem consolFold_mono : ∀ (rs : List Resource)
    (m : List ConsolidatedResource) (c : ConsolidatedResource),
    c ∈ m → c ∈ rs.foldl consolStep m := by
  intro rs
  induction rs with
  | nil => intro m c hc; simpa using hc
  | cons r t ih =>
    intro m c hc
    rw [List.foldl_cons]
    refine ih _ c ?_
    unfold consolStep
    split_ifs
    · exact hc
    · exact List.mem_append_left _ hc

theorem mkConsolidated_email (r : Resource) :
    (mkConsolidated r).email = normEmail r.email := rfl

theorem consolFold_first_seen : ∀ (rs : List Resource)
    (m : List ConsolidatedResource) (c : ConsolidatedResource),
    c ∈ rs.foldl consolStep m →
    c ∈ m ∨ ((∀ c' ∈ m, c'.email ≠ c.email) ∧
      ∃ r, rs.find? (fun r' => normEmail r'.email == c.email) = some r ∧
        c = mkConsolidated r) := by
  intro rs
  induction rs with
  | nil => intro m c hc; exact Or.inl (by simpa using hc)
  | cons r t ih =>
    intro m c hc
    rw [List.foldl_cons] at hc
    by_cases hin : m.any (fun c' => c'.email == normEmail r.email)
    · rw [show consolStep m r = m from if_pos hin] at hc
      rcases ih m c hc with h | ⟨hne, r', hfind, hceq⟩
      · exact Or.inl h
      · refine Or.inr ⟨hne, r', ?_, hceq⟩
        rw [List.find?_cons]
        have hnem : ¬(normEmail r.email = c.email) := by
          intro he
          rcases List.any_eq_true.mp hin with ⟨c0, hc0, hc0e⟩
          exact hne c0 hc0 (by rw [eq_of_beq hc0e, he])
        rw [show (normEmail r.email == c.email) = false from
          beq_eq_false_iff_ne.mpr hnem]
        exact hfind
    · rw [show consolStep m r = m ++ [mkConsolidated r] from if_neg hin] at hc
      have hnotin : ∀ c' ∈ m, c'.email ≠ normEmail r.email := by
        intro c' hc' he
        exact hin (List.any_eq_true.mpr ⟨c', hc', beq_iff_eq.mpr he⟩)
      rcases ih (m ++ [mkConsolidated r]) c hc with h | ⟨hne, r', hfind, hceq⟩
      · rcases List.mem_append.mp h with h | h
        · exact Or.inl h
        · have hcr : c = mkConsolidated r := by simpa using h
          subst hcr
          refine Or.inr ⟨?_, r, ?_, rfl⟩
          · intro c' hc' he
            exact hnotin c' hc' (he.trans (mkConsolidated_email r))
          · rw [List.find?_cons]
            rw [show (normEmail r.email == (mkConsolidated r).email) = true from
              beq_iff_eq.mpr (mkConsolidated_email r).symm]
      · refine Or.inr ⟨fun c' hc' => hne c' (List.mem_append_left _ hc'), r', ?_, hceq⟩
        rw [List.find?_cons]
        have hner : ¬(normEmail r.email = c.email) := by
          intro he
          exact hne (mkConsolidated r)
            (List.mem_append_right _ (by simp))
            ((mkConsolidated_email r).trans he)
        rw [show (normEmail r.email == c.email) = false from
          beq_eq_false_iff_ne.mpr hner]
        exact hfind

theorem consolFold_email_nodup : ∀ (rs : List Resource)
    (m : List ConsolidatedResource),
    (m.map (fun c => c.email)).Nodup →
    ((rs.foldl consolStep m).map (fun c => c.email)).Nodup := by
  intro rs
  induction rs with
  | nil => intro m h; simpa using h
  | cons r t ih =>
    intro m h
    rw [List.foldl_cons]
    by_cases hin : m.any (fun c' => c'.email == normEmail r.email)
    · rw [show consolStep m r = m from if_pos hin]
      exact ih m h
    · rw [show consolStep m r = m ++ [mkConsolidated r] from if_neg hin]
      refine ih _ ?_
      rw [List.map_append]
      refine List.Nodup.append h (by simp) ?_
      intro x hx hx'
      have hxr : x = normEmail r.email := by
        simpa [mkConsolidated_email] using hx'
      rcases List.mem_map.mp hx with ⟨c0, hc0, hc0x⟩
      exact hin (List.any_eq_true.mpr
        ⟨c0, hc0, beq_iff_eq.mpr (hc0x.trans hxr)⟩)

theorem mem_email_consolidate : ∀ (rs : List Resource)
    (m : List ConsolidatedResource) (r : Resource), r ∈ rs →
    ∃ c ∈ rs.foldl consolStep m, c.email = normEmail r.email := by
  intro rs
  induction rs with
  | nil => intro m r hr; cases hr
  | cons r' t ih =>
    intro m r hr
    rw [List.foldl_cons]
    rcases List.mem_cons.mp hr with rfl | hr'
    · by_cases hin : m.any (fun c' => c'.email == normEmail r.email)
      · rcases List.any_eq_true.mp hin with ⟨c0, hc0, hc0e⟩
        refine ⟨c0, consolFold_mono t _ c0 ?_, eq_of_beq hc0e⟩
        rw [show consolStep m r = m from if_pos hin]
        exact hc0
      · refine ⟨mkConsolidated r, consolFold_mono t _ _ ?_,
          mkConsolidated_email r⟩
        rw [show consolStep m r = m ++ [mkConsolidated r] from if_neg hin]
        exact List.mem_append_right _ (by simp)
    · exact ih (consolStep m r') r hr'

/-! ## Consolidator: second-pass lemmas -/

theorem addAssignment_emails (m : List ConsolidatedResource) (key : String)
    (a : Assignment) :
    (addAssignment m key a).map (fun c => c.email) =
      m.map (fun c => c.email) := by
  unfold addAssignment
  rw [List.map_map]
  refine List.map_congr_left ?_
  intro c _
  by_cases h : c.email = key <;> simp [h]

theorem aggFold_emails (rs : List Resource) : ∀ (as : List Assignment)
    (m : List ConsolidatedResource),
    ((as.foldl (aggStep rs) m).map (fun c => c.email)) =
      m.map (fun c => c.email) := by
  intro as
  induction as with
  | nil => intro m; rfl
  | cons a t ih =>
    intro m
    rw [List.foldl_cons, ih]
    unfold aggStep
    cases findResource rs a.resource_id with
    | none => rfl
    | some r => exact addAssignment_emails m _ a

theorem aggFold_strip (rs : List Resource) : ∀ (as : List Assignment)
    (m : List ConsolidatedResource) (c' : ConsolidatedResource),
    c' ∈ as.foldl (aggStep rs) m →
    ∃ c ∈ m, stripAssignments c' = stripAssignments c := by
  intro as
  induction as with
  | nil => intro m c' hc'; exact ⟨c', by simpa using hc', rfl⟩
  | cons a t ih =>
    intro m c' hc'
    rw [List.foldl_cons] at hc'
    obtain ⟨c1, hc1, he1⟩ := ih _ c' hc'
    have hstep : ∃ c ∈ m, stripAssignments c1 = stripAssignments c := by
      unfold aggStep at hc1
      cases hfind : findResource rs a.resource_id with
      | none => rw [hfind] at hc1; exact ⟨c1, hc1, rfl⟩
      | some r =>
        rw [hfind] at hc1
        unfold addAssignment at hc1
        rcases List.mem_map.mp hc1 with ⟨c0, hc0, hc0e⟩
        refine ⟨c0, hc0, ?_⟩
        rw [← hc0e]
        by_cases h : c0.email = normEmail r.email <;> simp [stripAssignments, h]
    obtain ⟨c, hc, he⟩ := hstep
    exact ⟨c, hc, he1.trans he⟩

theorem aggFold_resolved (rs : List Resource) (as : List Assignment)
    (m : List ConsolidatedResource)
    (hbase : ∀ c ∈ m, ∀ x ∈ c.assignments,
      (findResource rs x.resource_id).isSome) :
    ∀ c ∈ as.foldl (aggStep rs) m, ∀ x ∈ c.assignments,
      (findResource rs x.resource_id).isSome := by
  refine foldlPreserve
    (fun m => ∀ c ∈ m, ∀ x ∈ c.assignments,
      (findResource rs x.resource_id).isSome) ?_ as m hbase
  intro m a hP
  unfold aggStep
  cases hfind : findResource rs a.resource_id with
  | none => exact hP
  | some r =>
    intro c hc x hx
    unfold addAssignment at hc
    rcases List.mem_map.mp hc with ⟨c0, hc0, hc0e⟩
    by_cases h : c0.email = normEmail r.email
    · rw [if_pos h] at hc0e
      rw [← hc0e] at hx
      rcases List.mem_append.mp hx with hx | hx
      · exact hP c0 hc0 x hx
      · have hxa : x = a := by simpa using hx
        rw [hxa, hfind]
        rfl
    · rw [if_neg h] at hc0e
      rw [← hc0e] at hx
      exact hP c0 hc0 x hx

theorem addAssignment_adds (m : List ConsolidatedResource) (key : String)
    (a : Assignment) (hk : ∃ c0 ∈ m, c0.email = key) :
    ∃ c ∈ addAssignment m key a, c.email = key ∧ a ∈ c.assignments := by
  obtain ⟨c0, hc0, hc0e⟩ := hk
  refine ⟨{ c0 with assignments := c0.assignments ++ [a] }, ?_, hc0e, ?_⟩
  · unfold addAssignment
    have := List.mem_map_of_mem (fun c =>
      if c.email = key then { c with assignments := c.assignments ++ [a] }
      else c) hc0
    dsimp only at this
    rwa [if_pos hc0e] at this
  · exact List.mem_append_right _ (by simp)

theorem aggStep_keeps (rs : List Resource) (k : String) (x : Assignment)
    (m : List ConsolidatedResource) (a : Assignment)
    (h : ∃ c ∈ m, c.email = k ∧ x ∈ c.assignments) :
    ∃ c ∈ aggStep rs m a, c.email = k ∧ x ∈ c.assignments := by
  obtain ⟨c0, hc0, he, hx⟩ := h
  unfold aggStep
  cases findResource rs a.resource_id with
  | none => exact ⟨c0, hc0, he, hx⟩
  | some r =>
    unfold addAssignment
    by_cases hkey : c0.email = normEmail r.email
    · refine ⟨{ c0 with assignments := c0.assignments ++ [a] }, ?_, he, ?_⟩
      · have := List.mem_map_of_mem (fun c =>
          if c.email = normEmail r.email then
            { c with assignments := c.assignments ++ [a] }
          else c) hc0
        dsimp only at this
        rwa [if_pos hkey] at this
      · exact List.mem_append_left _ hx
    · refine ⟨c0, ?_, he, hx⟩
      have := List.mem_map_of_mem (fun c =>
        if c.email = normEmail r.email then
          { c with assignments := c.assignments ++ [a] }
        else c) hc0
      dsimp only at this
      rwa [if_neg hkey] at this

theorem aggFold_keeps (rs : List Resource) (k : String) (x : Assignment)
    (as : List Assignment) (m : List ConsolidatedResource)
    (h : ∃ c ∈ m, c.email = k ∧ x ∈ c.assignments) :
    ∃ c ∈ as.foldl (aggStep rs) m, c.email = k ∧ x ∈ c.assignments :=
  foldlPreserve (fun m => ∃ c ∈ m, c.email = k ∧ x ∈ c.assignments)
    (fun m a hP => aggStep_keeps rs k x m a hP) as m h

theorem aggStep_keypresent (rs : List Resource) (k : String)
    (m : List ConsolidatedResource) (a : Assignment)
    (h : ∃ c ∈ m, c.email = k) :
    ∃ c ∈ aggStep rs m a, c.email = k := by
  obtain ⟨c0, hc0, he⟩ := h
  unfold aggStep
  cases findResource rs a.resource_id with
  | none => exact ⟨c0, hc0, he⟩
  | some r =>
    unfold addAssignment
    by_cases hkey : c0.email = normEmail r.email
    · refine ⟨{ c0 with assignments := c0.assignments ++ [a] }, ?_, he⟩
      have := List.mem_map_of_mem (fun c =>
        if c.email = normEmail r.email then
          { c with assignments := c.assignments ++ [a] }
        else c) hc0
      dsimp only at this
      rwa [if_pos hkey] at this
    · refine ⟨c0, ?_, he⟩
      have := List.mem_map_of_mem (fun c =>
        if c.email = normEmail r.email then
          { c with assignments := c.assignments ++ [a] }
        else c) hc0
      dsimp only at this
      rwa [if_neg hkey] at this

theorem aggFold_lands (rs : List Resource) : ∀ (as : List Assignment)
    (m : List ConsolidatedResource) (a : Assignment) (r : Resource),
    a ∈ as → findResource rs a.resource_id = some r →
    (∃ c0 ∈ m, c0.email = normEmail r.email) →
    ∃ c ∈ as.foldl (aggStep rs) m,
      c.email = normEmail r.email ∧ a ∈ c.assignments := by
  intro as
  induction as with
  | nil => intro m a r ha; cases ha
  | cons a' t ih =>
    intro m a r ha hfind hk
    rw [List.foldl_cons]
    rcases List.mem_cons.mp ha with rfl | ha'
    · have hhere : ∃ c ∈ aggStep rs m a,
          c.email = normEmail r.email ∧ a ∈ c.assignments := by
        unfold aggStep
        rw [hfind]
        exact addAssignment_adds m _ a hk
      exact aggFold_keeps rs _ a t _ hhere
    · exact ih _ a r ha' hfind (aggStep_keypresent rs _ m a' hk)

/-! ## Claim C9: consolidation by normalized email -/

/-- C9: consolidation produces at most one record per raw resource, with
pairwise-distinct normalized emails; every assignment resolving to a resource
lands in the single record keyed by that resource's normalized email (so two
raw records with equal normalized emails share one consolidated record); and
the fields of each consolidated record come from the first raw resource with
that normalized email. -/
theorem consolidation_by_email (rs : List Resource) (as : List Assignment) :
    (consolidator_core rs as).length ≤ rs.length ∧
    (consolidator_core rs as).Pairwise (fun c₁ c₂ => c₁.email ≠ c₂.email) ∧
    (∀ r1 ∈ rs, ∀ r2 ∈ rs, normEmail r1.email = normEmail r2.email →
      ∀ a ∈ as, (findResource rs a.resource_id = some r1 ∨
          findResource rs a.resource_id = some r2) →
        ∃ c ∈ consolidator_core rs as, c.email = normEmail r1.email ∧
          a ∈ c.assignments) ∧
    (∀ c ∈ consolidator_core rs as,
      ∃ r, rs.find? (fun r' => normEmail r'.email == c.email) = some r ∧
        c.id = r.id ∧ c.name = r.name ∧ c.role = r.role ∧
        c.capacity = r.max_capacity_hours_per_day ∧
        c.skills = r.skill_tags) := by
  have hemails : ((consolidator_core rs as).map (fun c => c.email)) =
      (consolidateResources rs).map (fun c => c.email) := by
    unfold consolidator_core consolidateResources
    exact aggFold_emails rs as _
  refine ⟨?_, ?_, ?_, ?_⟩
  · have h1 := congrArg List.length hemails
    rw [List.length_map, List.length_map] at h1
    have h2 : (consolidateResources rs).length ≤ rs.length := by
      have := consolFold_length rs []
      simpa [consolidateResources] using this
    omega
  · have hnd1 : ((consolidateResources rs).map (fun c => c.email)).Nodup := by
      unfold consolidateResources
      exact consolFold_email_nodup rs [] (by simp)
    have hnd : ((consolidator_core rs as).map (fun c => c.email)).Nodup := by
      rw [hemails]
      exact hnd1
    exact List.pairwise_map.mp hnd
  · intro r1 hr1 r2 hr2 hee a ha hor
    rcases hor with h | h
    · exact aggFold_lands rs as _ a r1 ha h
        (mem_email_consolidate rs [] r1 hr1)
    · obtain ⟨c, hc, he, hx⟩ := aggFold_lands rs as _ a r2 ha h
        (mem_email_consolidate rs [] r2 hr2)
      exact ⟨c, hc, by rw [he, ← hee], hx⟩
  · intro c hc
    obtain ⟨c0, hc0, hstrip⟩ := aggFold_strip rs as (consolidateResources rs) c hc
    rcases consolFold_first_seen rs [] c0 hc0 with h | ⟨_, r, hfind, hc0eq⟩
    · simp at h
    · subst hc0eq
      have hemail : c.email = normEmail r.email :=
        congrArg ConsolidatedResource.email hstrip
      refine ⟨r, ?_, congrArg ConsolidatedResource.id hstrip,
        congrArg ConsolidatedResource.name hstrip,
        congrArg ConsolidatedResource.role hstrip,
        congrArg ConsolidatedResource.capacity hstrip,
        congrArg ConsolidatedResource.skills hstrip⟩
      rw [hemail]
      exact hfind

/-- Witness for `consolidation_by_email`: in the source's consolidator test
data, `resB`'s assignment `asnB` lands in the single record keyed by the
normalized email shared with `resA`. -/
theorem consolidation_by_email_witness :
    ∃ c ∈ consolidator_core [resA, resB] [asnA, asnB],
      c.email = normEmail resA.email ∧ asnB ∈ c.assignments :=
  (consolidation_by_email [resA, resB] [asnA, asnB]).2.2.1 resA (by decide)
    resB (by decide) (by decide) asnB (by decide) (Or.inr (by decide))

/-! ## Claim C4 (corrected): data-quality conditions skip and log, but leave
`errors` unchanged -/

/-- Counterexample to C4 as stated: the unresolved-reference and zero-weekday
conditions do occur (the warning is logged and the record skipped), yet
`RunContext.errors` stays empty — the warning is not recorded there. -/
theorem dataquality_errors_cex :
    (consolidator_agent sGhost).errors = [] ∧
    consolidator_warnings sGhost.resources sGhost.assignments =
      ["Assignment asn-ghost references unknown resource res-404"] ∧
    (∀ c ∈ (consolidator_agent sGhost).consolidated_resources,
      asnGhost ∉ c.assignments) ∧
    (detector_agent (consolidator_agent sWknd)).errors = [] ∧
    detector_warnings
      (consolidator_agent sWknd).consolidated_resources =
      ["Assignment asn-wknd has no business days"] := by
  refine ⟨by decide, by decide, by decide, by decide, by decide⟩

/-- C4 (amended): an assignment with an unresolved resource reference, or a
zero-weekday date range, is skipped and its warning is emitted to the logger;
processing continues (the agents are total functions) and `RunContext.errors`
is left unchanged by both agents. -/
theorem dataquality_skip_and_log :
    (∀ (rs : List Resource) (as : List Assignment) (a : Assignment), a ∈ as →
      findResource rs a.resource_id = none →
        ("Assignment " ++ a.id ++ " references unknown resource " ++
          a.resource_id) ∈ consolidator_warnings rs as ∧
        ∀ c ∈ consolidator_core rs as, a ∉ c.assignments) ∧
    (∀ s : AgentState, (consolidator_agent s).errors = s.errors) ∧
    (∀ (led : Ledger) (a : Assignment),
      get_business_days a.start_date a.end_date = 0 →
        processAssignment led a = led) ∧
    (∀ (consolidated : List ConsolidatedResource)
        (r : ConsolidatedResource) (a : Assignment),
      r ∈ consolidated → a ∈ r.assignments →
      get_business_days a.start_date a.end_date = 0 →
        ("Assignment " ++ a.id ++ " has no business days")
          ∈ detector_warnings consolidated) ∧
    (∀ s : AgentState, (detector_agent s).errors = s.errors) := by
  refine ⟨?_, fun s => rfl, ?_, ?_, fun s => rfl⟩
  · intro rs as a ha hnone
    constructor
    · unfold consolidator_warnings
      refine List.mem_map_of_mem _ (List.mem_filter.mpr ⟨ha, ?_⟩)
      rw [hnone]
      rfl
    · intro c hc hmem
      have hbase : ∀ c ∈ consolidateResources rs, ∀ x ∈ c.assignments,
          (findResource rs x.resource_id).isSome := by
        intro c0 hc0 x hx
        rcases consolFold_first_seen rs [] c0 hc0 with h | ⟨_, r, _, hc0eq⟩
        · simp at h
        · rw [hc0eq] at hx
          simp [mkConsolidated] at hx
      have hres := aggFold_resolved rs as (consolidateResources rs) hbase c hc
        a hmem
      rw [hnone] at hres
      simp at hres
  · intro led a h0
    unfold processAssignment
    dsimp only
    rw [if_pos h0]
  · intro consolidated r a hr ha h0
    unfold detector_warnings
    refine List.mem_map_of_mem _ (List.mem_filter.mpr ⟨?_, ?_⟩)
    · exact List.mem_flatten.mpr ⟨r.assignments,
        List.mem_map_of_mem (fun x => x.assignments) hr, ha⟩
    · exact beq_iff_eq.mpr h0

/-- Witness for `dataquality_skip_and_log` at the concrete unresolved
assignment `asnGhost`. -/
theorem dataquality_skip_and_log_witness :
    ("Assignment " ++ asnGhost.id ++ " references unknown resource " ++
      asnGhost.resource_id) ∈ consolidator_warnings [resA] [asnGhost] ∧
    ∀ c ∈ consolidator_core [resA] [asnGhost], asnGhost ∉ c.assignments :=
  dataquality_skip_and_log.1 [resA] [asnGhost] asnGhost (by decide) (by decide)

/-! ## Sanity checks mirroring the source's unit tests -/

example : (resourceConflicts rTest).length = 3 := by decide
example : (resourceConflicts rTest).map (fun c => c.conflict_date) = [2, 3, 4] := by decide
example : ∀ c ∈ resourceConflicts rTest,
    c.allocated_hours = 16 ∧ c.overallocation_percent = 100 ∧
    c.severity = .CRITICAL ∧ c.tasks_involved.length = 2 ∧ c.projects_count = 2 := by decide
example : (sortConflicts (resourceConflicts rTest)).map (fun c => c.conflict_date) = [2, 3, 4] := by decide

example : (consolidator_core [resA, resB] [asnA, asnB]).length = 1 := by decide
example : ∀ c ∈ consolidator_core [resA, resB] [asnA, asnB],
    c.email = "joao.silva@company.com" ∧ c.assignments = [asnA, asnB] := by decide

example : pyRound 1 (2496/100) = 25 := by decide
example : classify_severity (2496/100) = .LOW := by decide

end ResourceManager
